import Mathlib

/-!
Verification development for the `redis-bitmap` utility library.

The development shallowly embeds the library's two layers:

* the pure in-memory bit-vector algebra of `lib/bitarray.js` (`BitArray.cast`,
  `BitArray.octet`, `BitArray.castFromBuffer`, the static `and`/`or`/`xor`
  operators, the SWAR population-count `BitArray.cardinality` and the two
  buffer/array counting paths), together with `utils.longest`;
* the command-orchestration layer of `lib/bitmap.js` (the `Bitmap` facade,
  its `tmpBitop`/`getBitop`/`countBitop`/`count` derived operations and the
  chained `Aggregate` session), modelled as pure functions from inputs to
  the sequence of store round trips they issue plus result interpreters.

JavaScript numeric semantics are modelled explicitly: the bitwise operators
`>>`, `&`, `<<` act on 32-bit two's-complement patterns (`toInt32` /
`toUint32` below) while `+` and `-` are exact integer arithmetic, so the
model of `BitArray.cardinality` works over `Int` and coerces at exactly the
places the JavaScript engine does.  Buffers are byte lists (`List Nat`,
entries `< 256`); out-of-range buffer reads behave as JavaScript `undefined`
(contributing `0` after `<<`, failing `=== 1` checks).
-/

set_option maxRecDepth 8000

/-! Section: Population count (specification-side reference function) -/

/-- Fuel-driven helper for `popcount`; the fuel only needs to dominate the
argument for the recursion on `n / 2` to bottom out. -/
def popcountAux : Nat → Nat → Nat
  | 0, _ => 0
  | fuel + 1, n => if n = 0 then 0 else n % 2 + popcountAux fuel (n / 2)

/-- Number of 1-bits in the binary representation of a natural number. -/
def popcount (n : Nat) : Nat := popcountAux n n

/-! Section: JavaScript 32-bit numeric primitives -/

/-- ToUint32: the 32-bit pattern of a JavaScript number (model: any `Int`). -/
def toUint32 (x : Int) : Nat := (x % 4294967296).toNat

/-- Reinterpret a 32-bit pattern as a signed (two's-complement) value, the
result type of every JavaScript bitwise operator. -/
def intOfPattern (p : Nat) : Int :=
  if p < 2147483648 then (p : Int) else (p : Int) - 4294967296

/-- ToInt32 coercion applied by JavaScript bitwise operators to operands. -/
def toInt32 (x : Int) : Int := intOfPattern (toUint32 x)

/-- JavaScript signed right shift `a >> s`: ToInt32 the operand, then
arithmetic shift, i.e. floor division by `2 ^ s`. -/
def jsShr (a : Int) (s : Nat) : Int := Int.fdiv (toInt32 a) ((2 : Int) ^ s)

/-- JavaScript bitwise and `a & b`: combine the 32-bit patterns, reinterpret
the resulting pattern as signed. -/
def jsAnd (a b : Int) : Int := intOfPattern (toUint32 a &&& toUint32 b)

/-- JavaScript left shift `a << s`: shift the 32-bit pattern, truncate to 32
bits, reinterpret as signed. -/
def jsShl (a : Int) (s : Nat) : Int :=
  intOfPattern ((toUint32 a <<< s) % 4294967296)

namespace BitArray

/-! Section: BitArray: conversions (lib/bitarray.js) -/

/-- Loop body of `BitArray.cast`: repeatedly push `tmp % 2` and halve while
`tmp > 0`, producing the least-significant-bit-first digit list.  Fuel-driven
so that it is judgmentally computable; `castBits n n` fully unfolds the loop. -/
def castBits : Nat → Nat → List Nat
  | 0, _ => []
  | fuel + 1, tmp => if tmp > 0 then tmp % 2 :: castBits fuel (tmp / 2) else []

/-- Model of `BitArray.octet`: if the array length is a nonzero multiple of 8
it is returned unchanged, otherwise it is zero-filled up to the next multiple
of 8 (an empty array becomes eight zeros). -/
def octet (arr : List Nat) : List Nat :=
  if arr.length ≠ 0 ∧ arr.length % 8 = 0 then arr
  else arr ++ List.replicate (8 - arr.length % 8) 0

/-- Model of `BitArray.cast num oct`: collect binary digits least significant
first, octet-pad when requested, then reverse (most significant bit first). -/
def cast (num : Nat) (oct : Bool) : List Nat :=
  (if oct then octet (castBits num num) else castBits num num).reverse

/-- Model of `BitArray.castFromBuffer`: concatenate, in buffer order, the
octet-padded cast of each byte (the loop `bits = bits.concat(...)`). -/
def castFromBuffer : List Nat → List Nat
  | [] => []
  | b :: t => octet (cast b true) ++ castFromBuffer t

/-! Section: BitArray: static algebra (lib/bitarray.js) and utils.longest -/

end BitArray

namespace utils

/-- Model of `utils.longest`: scan the argument list keeping the latest
argument whose length is at least the current maximum (`arg.length >= len`). -/
def longest (args : List (List Nat)) : List Nat :=
  args.foldl (fun resp arg => if resp.length ≤ arg.length then arg else resp) []

end utils

namespace BitArray

/-- Model of `BitArray.and`: for each index of the longest operand, emit 1
exactly when every operand has the entry `=== 1` there (out-of-range entries
read as `undefined`, which fails the `=== 1` test). -/
def and (args : List (List Nat)) : List Nat :=
  (List.range (utils.longest args).length).map fun i =>
    if (args.filter fun x => x.getD i 0 == 1).length = args.length then 1 else 0

/-- Model of `BitArray.or`: emit 1 exactly when at least one operand has the
entry `=== 1` at that index. -/
def or (args : List (List Nat)) : List Nat :=
  (List.range (utils.longest args).length).map fun i =>
    if (args.filter fun x => x.getD i 0 == 1).length ≠ 0 then 1 else 0

/-- Model of `BitArray.xor` (two operands): emit 1 exactly when one entry is
truthy and the other falsy (`a[i] && !b[i] || b[i] && !a[i]`); missing
entries are `undefined`, hence falsy, i.e. default `0`. -/
def xor (a b : List Nat) : List Nat :=
  (List.range (utils.longest [a, b]).length).map fun i =>
    if (a.getD i 0 ≠ 0 ∧ b.getD i 0 = 0) ∨ (b.getD i 0 ≠ 0 ∧ a.getD i 0 = 0)
    then 1 else 0

/-! Section: BitArray: cardinality (lib/bitarray.js) -/

/-- Model of `BitArray.cardinality`: the SWAR popcount over a 32-bit word,
with every `>>` and `&` acting on the two's-complement coercion of its
operands and `+`/`-` exact, exactly as in JavaScript. -/
def cardinality (x : Int) : Int :=
  let x1 := x - jsAnd (jsShr x 1) 0x55555555
  let x2 := jsAnd (jsShr x1 2) 0x33333333 + jsAnd x1 0x33333333
  let x3 := jsAnd (jsShr x2 4 + x2) 0x0f0f0f0f
  let x4 := x3 + jsShr x3 8
  let x5 := x4 + jsShr x4 16
  jsAnd x5 0x0000003f

/-- First SWAR line over a nonnegative 32-bit pattern. -/
def swarStep1 (x : Nat) : Nat := x - ((x >>> 1) &&& 0x55555555)

/-- Second SWAR line over a nonnegative 32-bit pattern. -/
def swarStep2 (x : Nat) : Nat := ((x >>> 2) &&& 0x33333333) + (x &&& 0x33333333)

/-- Third SWAR line over a nonnegative 32-bit pattern. -/
def swarStep3 (x : Nat) : Nat := ((x >>> 4) + x) &&& 0x0f0f0f0f

/-- Fourth SWAR line (`x += x >> 8`) over a nonnegative 32-bit pattern. -/
def swarStep4 (x : Nat) : Nat := x + (x >>> 8)

/-- Fifth SWAR line (`x += x >> 16`) over a nonnegative 32-bit pattern. -/
def swarStep5 (x : Nat) : Nat := x + (x >>> 16)

/-- The same SWAR pipeline expressed over nonnegative 32-bit patterns; the
bridge `cardinality_eq_cardNat` below proves it agrees with the JavaScript
`Int` model on every input pattern. -/
def cardNat (x : Nat) : Nat :=
  swarStep5 (swarStep4 (swarStep3 (swarStep2 (swarStep1 x)))) &&& 0x0000003f

/-- The little-endian 32-bit word `buf[i] + (buf[i+1] << 8) + (buf[i+2] << 16)
+ (buf[i+3] << 24)` assembled by `cardinalityFromBuffer`; missing bytes read
as `undefined` and contribute `0` after `<<`. -/
def mkWord (b0 b1 b2 b3 : Nat) : Int :=
  (b0 : Int) + jsShl (b1 : Int) 8 + jsShl (b2 : Int) 16 + jsShl (b3 : Int) 24

/-- Model of `BitArray.cardinalityFromBuffer`: sum `cardinality` over the
buffer four bytes at a time (a short final group is zero-padded, because the
out-of-range reads are `undefined`). -/
def cardinalityFromBuffer : List Nat → Int
  | [] => 0
  | [b0] => cardinality (mkWord b0 0 0 0)
  | [b0, b1] => cardinality (mkWord b0 b1 0 0)
  | [b0, b1, b2] => cardinality (mkWord b0 b1 b2 0)
  | b0 :: b1 :: b2 :: b3 :: rest =>
      cardinality (mkWord b0 b1 b2 b3) + cardinalityFromBuffer rest

/-- Model of `BitArray.cardinalityFromArray`: count the truthy entries
(`if (arr[i]) val += 1`). -/
def cardinalityFromArray : List Nat → Nat
  | [] => 0
  | a :: t => (if a ≠ 0 then 1 else 0) + cardinalityFromArray t

/-- Model of `BitArray.prototype.set`: zero-push while `idx > length`, then
assign `val ? 1 : 0` at `idx` (assigning at the current length appends). -/
def set (bits : List Nat) (idx : Nat) (val : Nat) : List Nat :=
  if idx < bits.length then bits.set idx (if val ≠ 0 then 1 else 0)
  else bits ++ List.replicate (idx - bits.length) 0 ++ [if val ≠ 0 then 1 else 0]

end BitArray

/-! Section: Specification-side reference definitions (refinement targets) -/

/-- Modelled from the spec: the 8-bit big-endian expansion of one byte,
"most significant bit first within each byte". -/
def specByteBigEndian (b : Nat) : List Nat :=
  [b / 128 % 2, b / 64 % 2, b / 32 % 2, b / 16 % 2,
   b / 8 % 2, b / 4 % 2, b / 2 % 2, b % 2]

/-- Modelled from the spec: `decode` concatenates the big-endian expansion of
each byte in buffer order. -/
def specDecode : List Nat → List Nat
  | [] => []
  | b :: t => specByteBigEndian b ++ specDecode t

/-- Length of the longest operand, as a fold; used to state the algebra
claims ("length determined by an explicit length-based comparison"). -/
def maxLenOf (args : List (List Nat)) : Nat :=
  args.foldr (fun xs m => max xs.length m) 0

/-- Entries of a well-formed bit sequence are literal 0s and 1s. -/
def AllBits (xs : List Nat) : Prop := ∀ b ∈ xs, b = 0 ∨ b = 1

instance (xs : List Nat) : Decidable (AllBits xs) :=
  List.decidableBAll (fun b => b = 0 ∨ b = 1) xs

/-! Section: Byte-slice machinery for the SWAR correctness proof -/

/-- Value of a little-endian byte list. -/
def bval : List Nat → Nat
  | [] => 0
  | b :: t => b + 256 * bval t

/-- The constant mask whose every byte is `m`, over `n` bytes
(`maskRep 0x55 4 = 0x55555555` and so on). -/
def maskRep (m : Nat) : Nat → Nat
  | 0 => 0
  | n + 1 => m + 256 * maskRep m n

/-- First SWAR step restricted to one byte. -/
def swarByte1 (b : Nat) : Nat := b - ((b >>> 1) &&& 0x55)

/-- Second SWAR step restricted to one byte. -/
def swarByte2 (b : Nat) : Nat := ((b >>> 2) &&& 0x33) + (b &&& 0x33)

/-- Third SWAR step restricted to one byte. -/
def swarByte3 (b : Nat) : Nat := ((b >>> 4) + b) &&& 0x0f

/-! Section: Store commands and effects (lib/bitmap.js orchestration layer) -/

/-- Terminal read command of a derived operation: `GET`-class or
`BITCOUNT`-class. -/
inductive TermCmd where
  | get
  | bitcount
deriving DecidableEq

/-- Store commands the library issues. -/
inductive RCmd where
  | setbit (key : String) (offset : Nat) (val : Nat)
  | getKeys (keys : List String)
  | bitop (op : String) (dest : String) (srcs : List String)
  | bitcount (keys : List String)
  | del (key : String)
deriving DecidableEq

/-- One observable interaction with the store: either a single immediate
command round trip, or one MULTI/EXEC transaction carrying a whole batch. -/
inductive Effect where
  | command (c : RCmd)
  | multiExec (batch : List RCmd)
deriving DecidableEq

/-- The store command used to read the destination key back
(`this.client[cmd](dest)`). -/
def readCmd : TermCmd → String → RCmd
  | TermCmd.get, d => RCmd.getKeys [d]
  | TermCmd.bitcount, d => RCmd.bitcount [d]

/-- Replies the store can deliver for one command. -/
inductive Reply where
  | buf (bytes : List Nat)
  | int (n : Int)
  | nil
deriving DecidableEq

/-- JavaScript truthiness of a reply (`null` and `0` are falsy; every Buffer,
including an empty one, is truthy). -/
def replyTruthy : Reply → Bool
  | Reply.buf _ => true
  | Reply.int n => n ≠ 0
  | Reply.nil => false

/-- The byte list `new BitArray(resp)` decodes: the bytes of a buffer reply;
for a non-buffer value the constructor's `for` loop reads `buf.length` as
`undefined` and decodes no bytes at all. -/
def bufBytes : Reply → List Nat
  | Reply.buf b => b
  | _ => []

/-- The value handed to the caller by a derived-operation callback. -/
inductive Delivered where
  | bitarr (bits : List Nat)
  | reply (r : Reply)
  | missing
deriving DecidableEq

/-- JavaScript array read `resp[resp.length - k]`: `undefined` when the index
is negative or out of range. -/
def jsIndexGet (resp : List Reply) (k : Nat) : Option Reply :=
  if 1 ≤ k ∧ k ≤ resp.length then resp[resp.length - k]? else none

namespace Bitmap

/-! Section: Bitmap facade (the readme-documented version of lib/bitmap.js) -/

/-- Model of the `Bitmap` constructor: construction throws a configuration
error unless the client has `return_buffers` set; otherwise the client is
used as-is. -/
structure ClientOptions where
  return_buffers : Bool
  detect_buffers : Bool
deriving DecidableEq

/-- Model of `new Bitmap(client)` for the current (readme-documented)
constructor: fail fast when `return_buffers` is not set. -/
def mk' (opts : ClientOptions) : Except String ClientOptions :=
  if !opts.return_buffers then
    Except.error "Redis instance must have return_buffers set."
  else Except.ok opts

/-- Model of the historical `Bitmap` constructor variant: when
`detect_buffers` is not set it warns and forces the option on, so
construction always yields a buffer-mode client. -/
def mkLegacy (opts : ClientOptions) : ClientOptions :=
  if !opts.detect_buffers then { opts with detect_buffers := true } else opts

/-- Effects of `Bitmap.prototype.tmpBitop(cmd, op, keys..., [callback])` on a
facade instance: with a callback it builds one `multi` carrying the BITOP,
the terminal read and the DEL and execs it as a single transaction; without a
callback it only queues a BITOP into a fresh, never-executed aggregate, so no
round trip is issued at all. -/
def tmpBitop (dest : String) (cmd : TermCmd) (op : String) (keys : List String)
    (hasCallback : Bool) : List Effect :=
  if hasCallback then
    [Effect.multiExec [RCmd.bitop op dest keys, readCmd cmd dest, RCmd.del dest]]
  else []

/-- Model of `Bitmap.prototype.getBitop(op, keys..., [callback])`. -/
def getBitop (dest : String) (op : String) (keys : List String)
    (hasCallback : Bool) : List Effect :=
  tmpBitop dest TermCmd.get op keys hasCallback

/-- Model of `Bitmap.prototype.countBitop(op, keys..., [callback])`. -/
def countBitop (dest : String) (op : String) (keys : List String)
    (hasCallback : Bool) : List Effect :=
  tmpBitop dest TermCmd.bitcount op keys hasCallback

/-- Model of `Bitmap.prototype.not(keys..., [callback])`, which forwards to
`getBitop('NOT', ...)` with no arity check of its own. -/
def not (dest : String) (keys : List String) (hasCallback : Bool) : List Effect :=
  getBitop dest "NOT" keys hasCallback

/-- Model of `Bitmap.prototype.or(keys..., [callback])`. -/
def or (dest : String) (keys : List String) (hasCallback : Bool) : List Effect :=
  getBitop dest "OR" keys hasCallback

/-- Model of `Bitmap.prototype.count(keys..., [callback])` on a facade
instance (`_isAggr` unset): fewer than three raw arguments (keys plus the
optional callback) go straight to a single `BITCOUNT`; otherwise the call is
routed through `countBitop('OR', ...)`. -/
def count (dest : String) (keys : List String) (hasCallback : Bool) : List Effect :=
  if keys.length + (if hasCallback then 1 else 0) < 3 then
    [Effect.command (RCmd.bitcount keys)]
  else countBitop dest "OR" keys hasCallback

end Bitmap

/-! Section: Aggregate sessions (lib/bitmap.js) -/

/-- State of one `Aggregate` instance.  `execCount` is ghost instrumentation
recording how many times `exec` has run; the source object keeps no such
field and, as the step function shows, no method ever consults it. -/
structure AggState where
  queue : List RCmd
  lastCmd : Option TermCmd
  dest : String
  cleanup : Bool
  isRunning : Bool
  execCount : Nat
deriving DecidableEq

namespace Aggregate

/-- Model of `new Aggregate(client, dest)`: a fresh multi queue and the
destination defaulting to the `bitmap:tmp` literal when absent or falsy. -/
def mk' (dest : Option String) : AggState :=
  { queue := []
    lastCmd := none
    dest := match dest with
      | none => "bitmap:tmp"
      | some d => if d = "" then "bitmap:tmp" else d
    cleanup := false
    isRunning := false
    execCount := 0 }

end Aggregate

/-- The chainable methods of an aggregate session. -/
inductive ChainMethod where
  | bitwise (op : String) (keys : List String)
  | setbit (key : String) (offset : Nat) (val : Nat)
  | clean
  | countKeys (keys : List String)
deriving DecidableEq

/-- One chained call on an `Aggregate`.  A bitwise method queues
`BITOP op dest keys...` (appending the destination as an extra source once
the session is running), marks the session running and records the `GET`
terminal command; `count` records `BITCOUNT` instead; `set` queues a SETBIT;
`clean` sets the cleanup flag.  Every path returns `Except.ok`: the source
has no finalized-state check anywhere, so no call ever fails. -/
def aggChainStep (st : AggState) (m : ChainMethod) :
    Except String (AggState × List Effect) :=
  match m with
  | ChainMethod.bitwise op keys =>
      Except.ok ({ st with
        queue := st.queue ++
          [RCmd.bitop op st.dest (keys ++ if st.isRunning then [st.dest] else [])]
        isRunning := true
        lastCmd := some TermCmd.get }, [])
  | ChainMethod.setbit k off v =>
      Except.ok ({ st with queue := st.queue ++ [RCmd.setbit k off v] }, [])
  | ChainMethod.clean =>
      Except.ok ({ st with cleanup := true }, [])
  | ChainMethod.countKeys keys =>
      Except.ok ({ st with
        queue := st.queue ++
          [RCmd.bitop "OR" st.dest (keys ++ if st.isRunning then [st.dest] else [])]
        isRunning := true
        lastCmd := some TermCmd.bitcount }, [])

/-- The batch `Aggregate.prototype.exec` submits: when a destination and a
terminal command are present, the terminal read (and, under `cleanup`, a DEL
of the destination) are appended to the queued commands first. -/
def aggExecQueue (st : AggState) : List RCmd :=
  if st.dest ≠ "" ∧ st.lastCmd.isSome then
    st.queue ++ [readCmd (st.lastCmd.getD TermCmd.get) st.dest] ++
      (if st.cleanup then [RCmd.del st.dest] else [])
  else st.queue

/-- Model of `Aggregate.prototype.exec`: append the terminal commands to the
multi queue and submit the whole queue as one MULTI/EXEC transaction. -/
def aggExec (st : AggState) : AggState × List Effect :=
  ({ st with queue := aggExecQueue st, execCount := st.execCount + 1 },
   [Effect.multiExec (aggExecQueue st)])

/-- Model of the result interpretation installed by `exec` when a destination
and terminal command exist: take `resp[resp.length - (clean ? 2 : 1)]`, wrap
it in a `BitArray` when the terminal command is `GET`-class and the slot is
truthy, and otherwise hand the reply through unchanged. -/
def aggInterpret (cmd : TermCmd) (clean : Bool) (resp : List Reply) : Delivered :=
  match jsIndexGet resp (if clean then 2 else 1) with
  | none => Delivered.missing
  | some r =>
      if cmd = TermCmd.get ∧ replyTruthy r then
        Delivered.bitarr (BitArray.castFromBuffer (bufBytes r))
      else Delivered.reply r

/-! Section: Popcount lemmas -/

theorem popcountAux_stable : ∀ f g n : Nat, n ≤ f → n ≤ g → popcountAux f n = popcountAux g n := by
  intro f
  induction f with
  | zero =>
    intro g n hf _
    have hn : n = 0 := by omega
    cases g <;> simp [hn, popcountAux]
  | succ f ih =>
    intro g n hf hg
    cases g with
    | zero =>
      have hn : n = 0 := by omega
      simp [hn, popcountAux]
    | succ g =>
      by_cases h : n = 0
      · simp [h, popcountAux]
      · simp only [popcountAux, h, if_false]
        rw [ih g (n / 2) (by omega) (by omega)]

theorem popcount_eq (n : Nat) : popcount n = n % 2 + popcount (n / 2) := by
  cases n with
  | zero => simp [popcount, popcountAux]
  | succ m =>
    show popcountAux (m + 1) (m + 1) = _
    simp only [popcountAux, Nat.succ_ne_zero, if_false]
    rw [popcountAux_stable m ((m + 1) / 2) ((m + 1) / 2) (by omega) (by omega)]
    rfl

theorem popcount_zero : popcount 0 = 0 := rfl

theorem popcount_split (k : Nat) : ∀ b v : Nat, b < 2 ^ k →
    popcount (b + 2 ^ k * v) = popcount b + popcount v := by
  induction k with
  | zero =>
    intro b v hb
    have hb0 : b = 0 := by omega
    simp [hb0, popcount_zero]
  | succ k ih =>
    intro b v hb
    have hp : (0:Nat) < 2 ^ k := Nat.pos_pow_of_pos k (by omega)
    have hsplit : 2 ^ (k + 1) * v = 2 * (2 ^ k * v) := by ring
    rw [popcount_eq (b + 2 ^ (k + 1) * v), hsplit]
    have hb2 : b / 2 < 2 ^ k := by
      have : 2 ^ (k+1) = 2 * 2 ^ k := by ring
      omega
    have hmod : (b + 2 * (2 ^ k * v)) % 2 = b % 2 := by omega
    have hdiv : (b + 2 * (2 ^ k * v)) / 2 = b / 2 + 2 ^ k * v := by omega
    rw [hmod, hdiv, ih (b / 2) v hb2, popcount_eq b]
    ring

/-! Section: Bit-split toolkit -/

theorem land_split (k u v m w : Nat) (hu : u < 2 ^ k) (hm : m < 2 ^ k) :
    (u + 2 ^ k * v) &&& (m + 2 ^ k * w) = (u &&& m) + 2 ^ k * (v &&& w) := by
  apply Nat.eq_of_testBit_eq
  intro i
  rw [Nat.add_comm u, Nat.add_comm m, Nat.add_comm (u &&& m)]
  rw [Nat.testBit_and]
  rw [Nat.testBit_mul_pow_two_add v hu i, Nat.testBit_mul_pow_two_add w hm i,
      Nat.testBit_mul_pow_two_add (v &&& w) (Nat.and_lt_two_pow u hm) i]
  by_cases h : i < k
  · simp [h]
  · simp [h]

theorem land_high_absorb (k u c m : Nat) (hu : u < 2 ^ k) (hm : m < 2 ^ k) :
    (u + 2 ^ k * c) &&& m = u &&& m := by
  have h := land_split k u c m 0 hu hm
  simpa using h

theorem land_split8 (u v m w : Nat) (hu : u < 256) (hm : m < 256) :
    (u + 256 * v) &&& (m + 256 * w) = (u &&& m) + 256 * (v &&& w) := by
  have h8 : (2:Nat) ^ 8 = 256 := by norm_num
  have h := land_split 8 u v m w (by omega) (by omega)
  rw [h8] at h
  exact h

/-! Section: SWAR stage lemmas over byte lists -/

theorem swarByteFacts : ∀ b, b < 256 →
    swarByte1 b < 256 ∧ swarByte2 (swarByte1 b) ≤ 102 ∧
    swarByte2 (swarByte1 b) % 16 ≤ 6 ∧
    swarByte3 (swarByte2 (swarByte1 b)) = popcount b ∧
    swarByte3 (swarByte2 (swarByte1 b)) ≤ 8 := by decide

theorem stage1_split : ∀ bs : List Nat, (∀ b ∈ bs, b < 256) →
    bval bs - ((bval bs >>> 1) &&& maskRep 85 bs.length) = bval (bs.map swarByte1) := by
  intro bs
  induction bs with
  | nil => simp [bval, maskRep]
  | cons b t ih =>
    intro hb
    have hb0 : b < 256 := hb b (by simp)
    have ht : ∀ x ∈ t, x < 256 := fun x hx => hb x (by simp [hx])
    have eshift : (b + 256 * bval t) >>> 1
        = (b / 2 + 128 * (bval t % 2)) + 256 * (bval t / 2) := by
      rw [Nat.shiftRight_eq_div_pow, pow_one]
      omega
    have emask : ((b / 2 + 128 * (bval t % 2)) + 256 * (bval t / 2))
          &&& (85 + 256 * maskRep 85 t.length)
        = ((b / 2 + 128 * (bval t % 2)) &&& 85)
          + 256 * ((bval t / 2) &&& maskRep 85 t.length) :=
      land_split8 _ _ _ _ (by omega) (by omega)
    have eabs : (b / 2 + 128 * (bval t % 2)) &&& 85 = (b / 2) &&& 85 := by
      have h := land_high_absorb 7 (b / 2) (bval t % 2) 85 (by omega) (by omega)
      norm_num at h
      exact h
    show (b + 256 * bval t)
        - (((b + 256 * bval t) >>> 1) &&& (85 + 256 * maskRep 85 t.length))
        = swarByte1 b + 256 * bval (t.map swarByte1)
    rw [eshift, emask, eabs, ← ih ht]
    unfold swarByte1
    rw [Nat.shiftRight_eq_div_pow, Nat.shiftRight_eq_div_pow, pow_one]
    have hle1 : (b / 2) &&& 85 ≤ b / 2 := Nat.and_le_left
    have hle2 : (bval t / 2) &&& maskRep 85 t.length ≤ bval t / 2 := Nat.and_le_left
    generalize (b / 2) &&& 85 = A at *
    generalize (bval t / 2) &&& maskRep 85 t.length = B at *
    omega

theorem stage2_split : ∀ bs : List Nat, (∀ b ∈ bs, b < 256) →
    ((bval bs >>> 2) &&& maskRep 51 bs.length) + (bval bs &&& maskRep 51 bs.length)
      = bval (bs.map swarByte2) := by
  intro bs
  induction bs with
  | nil => simp [bval, maskRep]
  | cons b t ih =>
    intro hb
    have hb0 : b < 256 := hb b (by simp)
    have ht : ∀ x ∈ t, x < 256 := fun x hx => hb x (by simp [hx])
    have eshift : (b + 256 * bval t) >>> 2
        = (b / 4 + 64 * (bval t % 4)) + 256 * (bval t / 4) := by
      rw [Nat.shiftRight_eq_div_pow]
      norm_num
      omega
    have emask1 : ((b / 4 + 64 * (bval t % 4)) + 256 * (bval t / 4))
          &&& (51 + 256 * maskRep 51 t.length)
        = ((b / 4 + 64 * (bval t % 4)) &&& 51)
          + 256 * ((bval t / 4) &&& maskRep 51 t.length) :=
      land_split8 _ _ _ _ (by omega) (by omega)
    have eabs : (b / 4 + 64 * (bval t % 4)) &&& 51 = (b / 4) &&& 51 := by
      have h := land_high_absorb 6 (b / 4) (bval t % 4) 51 (by omega) (by omega)
      norm_num at h
      exact h
    have emask2 : (b + 256 * bval t) &&& (51 + 256 * maskRep 51 t.length)
        = (b &&& 51) + 256 * (bval t &&& maskRep 51 t.length) :=
      land_split8 _ _ _ _ (by omega) (by omega)
    show (((b + 256 * bval t) >>> 2) &&& (51 + 256 * maskRep 51 t.length))
        + ((b + 256 * bval t) &&& (51 + 256 * maskRep 51 t.length))
        = swarByte2 b + 256 * bval (t.map swarByte2)
    rw [eshift, emask1, eabs, emask2, ← ih ht]
    unfold swarByte2
    rw [Nat.shiftRight_eq_div_pow, Nat.shiftRight_eq_div_pow]
    norm_num
    ring

theorem bval_mod16 : ∀ bs : List Nat, (∀ b ∈ bs, b % 16 ≤ 6) → bval bs % 16 ≤ 6 := by
  intro bs hb
  cases bs with
  | nil => simp [bval]
  | cons b t =>
    have hb0 : b % 16 ≤ 6 := hb b (by simp)
    show (b + 256 * bval t) % 16 ≤ 6
    omega

theorem stage3_split : ∀ bs : List Nat, (∀ b ∈ bs, b ≤ 102 ∧ b % 16 ≤ 6) →
    ((bval bs >>> 4) + bval bs) &&& maskRep 15 bs.length = bval (bs.map swarByte3) := by
  intro bs
  induction bs with
  | nil => simp [bval, maskRep]
  | cons b t ih =>
    intro hb
    have hb0 := hb b (by simp)
    have ht : ∀ x ∈ t, x ≤ 102 ∧ x % 16 ≤ 6 := fun x hx => hb x (by simp [hx])
    have hv16 : bval t % 16 ≤ 6 := bval_mod16 t (fun x hx => (ht x hx).2)
    have eshift : (b + 256 * bval t) >>> 4
        = (b / 16 + 16 * (bval t % 16)) + 256 * (bval t / 16) := by
      rw [Nat.shiftRight_eq_div_pow]
      norm_num
      omega
    have emask : ((b / 16 + 16 * (bval t % 16) + b) + 256 * (bval t / 16 + bval t))
          &&& (15 + 256 * maskRep 15 t.length)
        = ((b / 16 + 16 * (bval t % 16) + b) &&& 15)
          + 256 * ((bval t / 16 + bval t) &&& maskRep 15 t.length) :=
      land_split8 _ _ _ _ (by omega) (by omega)
    have h15 : (15 : Nat) = 2 ^ 4 - 1 := by norm_num
    have ehead : (b / 16 + 16 * (bval t % 16) + b) &&& 15 = swarByte3 b := by
      unfold swarByte3
      rw [Nat.shiftRight_eq_div_pow, h15, Nat.and_pow_two_sub_one_eq_mod,
          Nat.and_pow_two_sub_one_eq_mod]
      norm_num
      omega
    show (((b + 256 * bval t) >>> 4) + (b + 256 * bval t))
        &&& (15 + 256 * maskRep 15 t.length)
        = swarByte3 b + 256 * bval (t.map swarByte3)
    rw [eshift, show ((b / 16 + 16 * (bval t % 16)) + 256 * (bval t / 16))
          + (b + 256 * bval t)
        = (b / 16 + 16 * (bval t % 16) + b) + 256 * (bval t / 16 + bval t) from by ring,
      emask, ehead, ← ih ht]
    rw [Nat.shiftRight_eq_div_pow]

theorem cardNat_eq_popcount (x : Nat) (hx : x < 4294967296) :
    BitArray.cardNat x = popcount x := by
  -- decompose the word into its four little-endian bytes
  set b0 := x % 256 with hb0
  set b1 := x / 256 % 256 with hb1
  set b2 := x / 65536 % 256 with hb2
  set b3 := x / 16777216 with hb3
  have hx0 : bval [b0, b1, b2, b3] = x := by simp [bval]; omega
  have hbytes : ∀ b ∈ [b0, b1, b2, b3], b < 256 := by
    intro b hbm
    simp at hbm
    rcases hbm with h | h | h | h <;> omega
  have hl1b : ∀ y ∈ [b0, b1, b2, b3].map swarByte1, y < 256 := by
    intro y hy
    rcases List.mem_map.mp hy with ⟨b, hbm, rfl⟩
    exact (swarByteFacts b (hbytes b hbm)).1
  have hl2c : ∀ y ∈ ([b0, b1, b2, b3].map swarByte1).map swarByte2,
      y ≤ 102 ∧ y % 16 ≤ 6 := by
    intro y hy
    rcases List.mem_map.mp hy with ⟨a, ham, rfl⟩
    rcases List.mem_map.mp ham with ⟨b, hbm, rfl⟩
    exact ⟨(swarByteFacts b (hbytes b hbm)).2.1, (swarByteFacts b (hbytes b hbm)).2.2.1⟩
  -- the three masked stages, specialised to the four-byte word
  have s1 := stage1_split [b0, b1, b2, b3] hbytes
  have hlen0 : ([b0, b1, b2, b3] : List Nat).length = 4 := by simp
  rw [hlen0, show maskRep 85 4 = 0x55555555 from by decide, hx0] at s1
  have s2 := stage2_split ([b0, b1, b2, b3].map swarByte1) hl1b
  have hlen1 : (([b0, b1, b2, b3] : List Nat).map swarByte1).length = 4 := by simp
  rw [hlen1, show maskRep 51 4 = 0x33333333 from by decide] at s2
  have s3 := stage3_split (([b0, b1, b2, b3].map swarByte1).map swarByte2) hl2c
  have hlen2 : ((([b0, b1, b2, b3] : List Nat).map swarByte1).map swarByte2).length = 4 := by
    simp
  rw [hlen2, show maskRep 15 4 = 0x0f0f0f0f from by decide] at s3
  -- the byte popcounts
  have hp0 := swarByteFacts b0 (hbytes b0 (by simp))
  have hp1 := swarByteFacts b1 (hbytes b1 (by simp))
  have hp2 := swarByteFacts b2 (hbytes b2 (by simp))
  have hp3 := swarByteFacts b3 (hbytes b3 (by simp))
  have hl3 : ((([b0, b1, b2, b3].map swarByte1).map swarByte2).map swarByte3)
      = [popcount b0, popcount b1, popcount b2, popcount b3] := by
    simp only [List.map_cons, List.map_nil]
    rw [hp0.2.2.2.1, hp1.2.2.2.1, hp2.2.2.2.1, hp3.2.2.2.1]
  -- assemble the pipeline
  simp only [BitArray.cardNat, BitArray.swarStep1, BitArray.swarStep2, BitArray.swarStep3,
    BitArray.swarStep4, BitArray.swarStep5]
  rw [s1, s2, s3, hl3]
  -- final horizontal sum: pure arithmetic on the four byte counts
  have e3 : bval [popcount b0, popcount b1, popcount b2, popcount b3]
      = popcount b0 + 256 * (popcount b1 + 256 * (popcount b2 + 256 * popcount b3)) := by
    simp [bval]
  rw [e3]
  rw [Nat.shiftRight_eq_div_pow, Nat.shiftRight_eq_div_pow,
    show (0x0000003f : Nat) = 2 ^ 6 - 1 from by norm_num, Nat.and_pow_two_sub_one_eq_mod]
  rw [show (2:Nat) ^ 8 = 256 from by norm_num, show (2:Nat) ^ 16 = 65536 from by norm_num,
    show (2:Nat) ^ 6 = 64 from by norm_num]
  have hsplit : popcount x
      = popcount b0 + (popcount b1 + (popcount b2 + popcount b3)) := by
    have hx1 : x = b0 + 2 ^ 8 * (b1 + 2 ^ 8 * (b2 + 2 ^ 8 * b3)) := by omega
    rw [hx1, popcount_split 8 _ _ (by omega), popcount_split 8 _ _ (by omega),
      popcount_split 8 _ _ (by omega)]
  rw [hsplit]
  have q0 : popcount b0 ≤ 8 := hp0.2.2.2.1 ▸ hp0.2.2.2.2
  have q1 : popcount b1 ≤ 8 := hp1.2.2.2.1 ▸ hp1.2.2.2.2
  have q2 : popcount b2 ≤ 8 := hp2.2.2.2.1 ▸ hp2.2.2.2.2
  have q3 : popcount b3 ≤ 8 := hp3.2.2.2.1 ▸ hp3.2.2.2.2
  clear hx0 hbytes hl1b hl2c s1 s2 s3 hp0 hp1 hp2 hp3 hl3 e3 hsplit hx
  generalize popcount b0 = p0 at q0 ⊢
  generalize popcount b1 = p1 at q1 ⊢
  generalize popcount b2 = p2 at q2 ⊢
  generalize popcount b3 = p3 at q3 ⊢
  have h1 : (p0 + 256 * (p1 + 256 * (p2 + 256 * p3))) / 256
      = p1 + 256 * (p2 + 256 * p3) := by omega
  rw [h1]
  have h2 : (p0 + 256 * (p1 + 256 * (p2 + 256 * p3)) + (p1 + 256 * (p2 + 256 * p3))) / 65536
      = p2 + p3 + 256 * p3 := by omega
  rw [h2]
  omega

/-! Section: Bridging the JavaScript Int model to the Nat pipeline -/

theorem toUint32_lt (x : Int) : toUint32 x < 4294967296 := by
  unfold toUint32
  omega

theorem toUint32_ofNat (n : Nat) (h : n < 4294967296) : toUint32 (n : Int) = n := by
  unfold toUint32
  omega

theorem intOfPattern_small (p : Nat) (hp : p < 2147483648) : intOfPattern p = (p : Int) := by
  unfold intOfPattern
  rw [if_pos hp]

theorem jsAnd_mask (a : Int) (m : Nat) (hm : m < 2147483648) :
    jsAnd a (m : Int) = ((toUint32 a &&& m : Nat) : Int) := by
  unfold jsAnd
  rw [toUint32_ofNat m (by omega)]
  exact intOfPattern_small _ (lt_of_le_of_lt Nat.and_le_right hm)

theorem jsShr_ediv (a : Int) (s : Nat) : jsShr a s = toInt32 a / (2 : Int) ^ s :=
  Int.fdiv_eq_ediv _ (by positivity)

theorem toUint32_jsShr1 (a : Int) :
    toUint32 (jsShr a 1)
      = toUint32 a / 2 + (if 2147483648 ≤ toUint32 a then 2147483648 else 0) := by
  rw [jsShr_ediv]
  have hu := toUint32_lt a
  unfold toInt32 intOfPattern
  norm_num
  by_cases hc : toUint32 a < 2147483648
  · rw [if_pos hc, if_neg (by omega)]
    unfold toUint32 at *
    omega
  · rw [if_neg hc, if_pos (by omega)]
    unfold toUint32 at *
    omega

theorem toUint32_jsShr2 (a : Int) :
    toUint32 (jsShr a 2)
      = toUint32 a / 4 + (if 2147483648 ≤ toUint32 a then 3221225472 else 0) := by
  rw [jsShr_ediv]
  have hu := toUint32_lt a
  unfold toInt32 intOfPattern
  norm_num
  by_cases hc : toUint32 a < 2147483648
  · rw [if_pos hc, if_neg (by omega)]
    unfold toUint32 at *
    omega
  · rw [if_neg hc, if_pos (by omega)]
    unfold toUint32 at *
    omega

theorem jsAnd_jsShr1_mask55 (a : Int) :
    jsAnd (jsShr a 1) 0x55555555 = ((toUint32 a / 2 &&& 0x55555555 : Nat) : Int) := by
  have h := jsAnd_mask (jsShr a 1) 0x55555555 (by norm_num)
  rw [show ((0x55555555 : Nat) : Int) = (0x55555555 : Int) from by norm_num] at h
  rw [h, toUint32_jsShr1]
  by_cases hc : 2147483648 ≤ toUint32 a
  · rw [if_pos hc]
    have habs := land_high_absorb 31 (toUint32 a / 2) 1 0x55555555
      (by have := toUint32_lt a; omega) (by norm_num)
    norm_num at habs
    rw [habs]
  · rw [if_neg hc]
    norm_num

theorem jsAnd_jsShr2_mask33 (a : Int) :
    jsAnd (jsShr a 2) 0x33333333 = ((toUint32 a / 4 &&& 0x33333333 : Nat) : Int) := by
  have h := jsAnd_mask (jsShr a 2) 0x33333333 (by norm_num)
  rw [show ((0x33333333 : Nat) : Int) = (0x33333333 : Int) from by norm_num] at h
  rw [h, toUint32_jsShr2]
  by_cases hc : 2147483648 ≤ toUint32 a
  · rw [if_pos hc]
    have habs := land_high_absorb 30 (toUint32 a / 4) 3 0x33333333
      (by have := toUint32_lt a; omega) (by norm_num)
    norm_num at habs
    rw [habs]
  · rw [if_neg hc]
    norm_num

theorem toUint32_sub_nat (x : Int) (m : Nat) (hm : m ≤ toUint32 x) :
    toUint32 (x - (m : Int)) = toUint32 x - m := by
  unfold toUint32 at *
  omega

theorem jsShr_ofNat_small (n : Nat) (h : n < 2147483648) (s : Nat) :
    jsShr ((n : Nat) : Int) s = ((n / 2 ^ s : Nat) : Int) := by
  rw [jsShr_ediv]
  unfold toInt32
  rw [toUint32_ofNat n (by omega), intOfPattern_small n h]
  push_cast
  rfl

theorem jsAnd_mask33 (a : Int) :
    jsAnd a 0x33333333 = ((toUint32 a &&& 0x33333333 : Nat) : Int) := by
  have h := jsAnd_mask a 0x33333333 (by norm_num)
  rw [show ((0x33333333 : Nat) : Int) = (0x33333333 : Int) from by norm_num] at h
  exact h

theorem jsAnd_mask0f (a : Int) :
    jsAnd a 0x0f0f0f0f = ((toUint32 a &&& 0x0f0f0f0f : Nat) : Int) := by
  have h := jsAnd_mask a 0x0f0f0f0f (by norm_num)
  rw [show ((0x0f0f0f0f : Nat) : Int) = (0x0f0f0f0f : Int) from by norm_num] at h
  exact h

theorem jsAnd_mask3f (a : Int) :
    jsAnd a 0x0000003f = ((toUint32 a &&& 0x0000003f : Nat) : Int) := by
  have h := jsAnd_mask a 0x0000003f (by norm_num)
  rw [show ((0x0000003f : Nat) : Int) = (0x0000003f : Int) from by norm_num] at h
  exact h

theorem swarStep2_lt (z : Nat) : BitArray.swarStep2 z < 2147483648 := by
  have a1 : (z >>> 2) &&& 0x33333333 ≤ 0x33333333 := Nat.and_le_right
  have a2 : z &&& 0x33333333 ≤ 0x33333333 := Nat.and_le_right
  simp only [BitArray.swarStep2]
  omega

theorem swarStep3_le (z : Nat) : BitArray.swarStep3 z ≤ 0x0f0f0f0f := Nat.and_le_right

theorem jsStep3_ofNat (n : Nat) (h : n < 2147483648) :
    jsAnd (jsShr (n : Int) 4 + (n : Int)) 0x0f0f0f0f
      = ((BitArray.swarStep3 n : Nat) : Int) := by
  rw [jsShr_ofNat_small n h 4]
  rw [show ((n / 2 ^ 4 : Nat) : Int) + (n : Int) = ((n / 2 ^ 4 + n : Nat) : Int) from by
    push_cast; ring]
  rw [jsAnd_mask0f, toUint32_ofNat _ (by omega)]
  simp only [BitArray.swarStep3]
  rw [Nat.shiftRight_eq_div_pow]

theorem jsStep4_ofNat (n : Nat) (h : n < 2147483648) :
    (n : Int) + jsShr (n : Int) 8 = ((BitArray.swarStep4 n : Nat) : Int) := by
  rw [jsShr_ofNat_small n h 8]
  simp only [BitArray.swarStep4]
  rw [Nat.shiftRight_eq_div_pow]
  push_cast
  ring

theorem jsStep5_ofNat (n : Nat) (h : n < 2147483648) :
    (n : Int) + jsShr (n : Int) 16 = ((BitArray.swarStep5 n : Nat) : Int) := by
  rw [jsShr_ofNat_small n h 16]
  simp only [BitArray.swarStep5]
  rw [Nat.shiftRight_eq_div_pow]
  push_cast
  ring

theorem cardinality_eq_cardNat (x : Int) :
    BitArray.cardinality x = ((BitArray.cardNat (toUint32 x) : Nat) : Int) := by
  have hu := toUint32_lt x
  have hm1le : (toUint32 x / 2 &&& 0x55555555) ≤ toUint32 x :=
    le_trans Nat.and_le_left (Nat.div_le_self _ _)
  have eu1 : toUint32 (x - ((toUint32 x / 2 &&& 0x55555555 : Nat) : Int))
      = BitArray.swarStep1 (toUint32 x) := by
    rw [toUint32_sub_nat x _ hm1le]
    simp only [BitArray.swarStep1]
    rw [Nat.shiftRight_eq_div_pow, pow_one]
  simp only [BitArray.cardinality, BitArray.cardNat]
  rw [jsAnd_jsShr1_mask55 x]
  rw [jsAnd_jsShr2_mask33 (x - ((toUint32 x / 2 &&& 0x55555555 : Nat) : Int))]
  rw [jsAnd_mask33 (x - ((toUint32 x / 2 &&& 0x55555555 : Nat) : Int))]
  rw [eu1]
  rw [show ((BitArray.swarStep1 (toUint32 x) / 4 &&& 0x33333333 : Nat) : Int)
        + ((BitArray.swarStep1 (toUint32 x) &&& 0x33333333 : Nat) : Int)
      = ((BitArray.swarStep2 (BitArray.swarStep1 (toUint32 x)) : Nat) : Int) from by
    simp only [BitArray.swarStep2]
    rw [Nat.shiftRight_eq_div_pow]
    norm_num]
  rw [jsStep3_ofNat _ (swarStep2_lt _)]
  rw [jsStep4_ofNat _ (lt_of_le_of_lt (swarStep3_le _) (by norm_num))]
  rw [jsStep5_ofNat _ (by
    have h3 := swarStep3_le (BitArray.swarStep2 (BitArray.swarStep1 (toUint32 x)))
    simp only [BitArray.swarStep4]
    have h4 : BitArray.swarStep3 (BitArray.swarStep2 (BitArray.swarStep1 (toUint32 x))) >>> 8
        ≤ BitArray.swarStep3 (BitArray.swarStep2 (BitArray.swarStep1 (toUint32 x))) := by
      rw [Nat.shiftRight_eq_div_pow]
      exact Nat.div_le_self _ _
    omega)]
  rw [jsAnd_mask3f, toUint32_ofNat _ (by
    have h3 := swarStep3_le (BitArray.swarStep2 (BitArray.swarStep1 (toUint32 x)))
    simp only [BitArray.swarStep5, BitArray.swarStep4]
    have h4 : ∀ m k : Nat, m >>> k ≤ m := by
      intro m k
      rw [Nat.shiftRight_eq_div_pow]
      exact Nat.div_le_self _ _
    have h5 := h4 (BitArray.swarStep3 (BitArray.swarStep2 (BitArray.swarStep1 (toUint32 x)))) 8
    have h6 := h4 (BitArray.swarStep4 (BitArray.swarStep3 (BitArray.swarStep2 (BitArray.swarStep1 (toUint32 x))))) 16
    simp only [BitArray.swarStep4] at h6
    omega)]

/-! Section: Counting-path agreement -/

theorem cardinalityFromArray_append (xs ys : List Nat) :
    BitArray.cardinalityFromArray (xs ++ ys)
      = BitArray.cardinalityFromArray xs + BitArray.cardinalityFromArray ys := by
  induction xs with
  | nil => simp [BitArray.cardinalityFromArray]
  | cons a t ih =>
    show (if a ≠ 0 then 1 else 0) + BitArray.cardinalityFromArray (t ++ ys)
        = (if a ≠ 0 then 1 else 0) + BitArray.cardinalityFromArray t
          + BitArray.cardinalityFromArray ys
    rw [ih]
    omega

theorem castByteCount : ∀ b, b < 256 →
    BitArray.cardinalityFromArray (BitArray.octet (BitArray.cast b true)) = popcount b := by
  decide

theorem toUint32_mkWord (b0 b1 b2 b3 : Nat) (h0 : b0 < 256) (h1 : b1 < 256)
    (h2 : b2 < 256) (h3 : b3 < 256) :
    toUint32 (BitArray.mkWord b0 b1 b2 b3)
      = b0 + 256 * b1 + 65536 * b2 + 16777216 * b3 := by
  unfold BitArray.mkWord jsShl
  rw [toUint32_ofNat b1 (by omega), toUint32_ofNat b2 (by omega),
    toUint32_ofNat b3 (by omega)]
  rw [Nat.shiftLeft_eq, Nat.shiftLeft_eq, Nat.shiftLeft_eq]
  norm_num
  unfold intOfPattern toUint32
  split_ifs <;> omega

theorem cardinality_mkWord (b0 b1 b2 b3 : Nat) (h0 : b0 < 256) (h1 : b1 < 256)
    (h2 : b2 < 256) (h3 : b3 < 256) :
    BitArray.cardinality (BitArray.mkWord b0 b1 b2 b3)
      = ((popcount b0 + popcount b1 + popcount b2 + popcount b3 : Nat) : Int) := by
  rw [cardinality_eq_cardNat, toUint32_mkWord _ _ _ _ h0 h1 h2 h3,
    cardNat_eq_popcount _ (by omega)]
  norm_cast
  rw [show b0 + 256 * b1 + 65536 * b2 + 16777216 * b3
      = b0 + 2 ^ 8 * (b1 + 2 ^ 8 * (b2 + 2 ^ 8 * b3)) from by ring]
  rw [popcount_split 8 _ _ (by omega), popcount_split 8 _ _ (by omega),
    popcount_split 8 _ _ (by omega)]
  ring

/-- Claim C1: for every byte buffer (any length, including lengths that are
not multiples of four), the buffer-based counting path and the
sequence-based counting path agree. -/
theorem claim_C1 : ∀ buf : List Nat, (∀ b ∈ buf, b < 256) →
    BitArray.cardinalityFromBuffer buf
      = ((BitArray.cardinalityFromArray (BitArray.castFromBuffer buf) : Nat) : Int) := by
  intro buf
  induction buf using BitArray.cardinalityFromBuffer.induct with
  | case1 =>
    intro _
    simp [BitArray.cardinalityFromBuffer, BitArray.castFromBuffer,
      BitArray.cardinalityFromArray]
  | case2 b0 =>
    intro h
    have hb0 : b0 < 256 := h b0 (by simp)
    show BitArray.cardinality (BitArray.mkWord b0 0 0 0) = _
    rw [cardinality_mkWord b0 0 0 0 hb0 (by norm_num) (by norm_num) (by norm_num)]
    rw [show BitArray.castFromBuffer [b0]
        = BitArray.octet (BitArray.cast b0 true) ++ [] from rfl]
    rw [cardinalityFromArray_append, castByteCount b0 hb0]
    simp [popcount_zero, BitArray.cardinalityFromArray]
  | case3 b0 b1 =>
    intro h
    have hb0 : b0 < 256 := h b0 (by simp)
    have hb1 : b1 < 256 := h b1 (by simp)
    show BitArray.cardinality (BitArray.mkWord b0 b1 0 0) = _
    rw [cardinality_mkWord b0 b1 0 0 hb0 hb1 (by norm_num) (by norm_num)]
    rw [show BitArray.castFromBuffer [b0, b1]
        = BitArray.octet (BitArray.cast b0 true)
          ++ (BitArray.octet (BitArray.cast b1 true) ++ []) from rfl]
    rw [cardinalityFromArray_append, cardinalityFromArray_append,
      castByteCount b0 hb0, castByteCount b1 hb1]
    simp [popcount_zero, BitArray.cardinalityFromArray]
  | case4 b0 b1 b2 =>
    intro h
    have hb0 : b0 < 256 := h b0 (by simp)
    have hb1 : b1 < 256 := h b1 (by simp)
    have hb2 : b2 < 256 := h b2 (by simp)
    show BitArray.cardinality (BitArray.mkWord b0 b1 b2 0) = _
    rw [cardinality_mkWord b0 b1 b2 0 hb0 hb1 hb2 (by norm_num)]
    rw [show BitArray.castFromBuffer [b0, b1, b2]
        = BitArray.octet (BitArray.cast b0 true)
          ++ (BitArray.octet (BitArray.cast b1 true)
            ++ (BitArray.octet (BitArray.cast b2 true) ++ [])) from rfl]
    rw [cardinalityFromArray_append, cardinalityFromArray_append,
      cardinalityFromArray_append,
      castByteCount b0 hb0, castByteCount b1 hb1, castByteCount b2 hb2]
    simp [popcount_zero, BitArray.cardinalityFromArray]
    ring
  | case5 b0 b1 b2 b3 rest ih =>
    intro h
    have hb0 : b0 < 256 := h b0 (by simp)
    have hb1 : b1 < 256 := h b1 (by simp)
    have hb2 : b2 < 256 := h b2 (by simp)
    have hb3 : b3 < 256 := h b3 (by simp)
    have hrest : ∀ b ∈ rest, b < 256 := fun b hb => h b (by simp [hb])
    show BitArray.cardinality (BitArray.mkWord b0 b1 b2 b3)
        + BitArray.cardinalityFromBuffer rest = _
    rw [cardinality_mkWord b0 b1 b2 b3 hb0 hb1 hb2 hb3, ih hrest]
    rw [show BitArray.castFromBuffer (b0 :: b1 :: b2 :: b3 :: rest)
        = BitArray.octet (BitArray.cast b0 true)
          ++ (BitArray.octet (BitArray.cast b1 true)
            ++ (BitArray.octet (BitArray.cast b2 true)
              ++ (BitArray.octet (BitArray.cast b3 true)
                ++ BitArray.castFromBuffer rest))) from rfl]
    rw [cardinalityFromArray_append, cardinalityFromArray_append,
      cardinalityFromArray_append, cardinalityFromArray_append,
      castByteCount b0 hb0, castByteCount b1 hb1, castByteCount b2 hb2,
      castByteCount b3 hb3]
    push_cast
    ring

theorem claim_C1_witness :
    (∀ b ∈ [128, 144, 7], b < 256) ∧
    BitArray.cardinalityFromBuffer [128, 144, 7]
      = ((BitArray.cardinalityFromArray
          (BitArray.castFromBuffer [128, 144, 7]) : Nat) : Int) :=
  ⟨by decide, claim_C1 [128, 144, 7] (by decide)⟩

/-- Claim C2: the SWAR cardinality returns the exact population count for
every 32-bit word, with the word read through JavaScript's two's-complement
coercion; in particular `cardinality 144 = 2` and `cardinality 128 = 1`. -/
theorem claim_C2 :
    (∀ x : Nat, x < 4294967296 →
      BitArray.cardinality ((x : Nat) : Int) = ((popcount x : Nat) : Int))
    ∧ BitArray.cardinality 144 = 2 ∧ BitArray.cardinality 128 = 1 := by
  refine ⟨fun x hx => ?_, by decide, by decide⟩
  rw [cardinality_eq_cardNat, toUint32_ofNat x hx, cardNat_eq_popcount x hx]

theorem claim_C2_witness :
    4294967295 < 4294967296 ∧
    BitArray.cardinality ((4294967295 : Nat) : Int)
      = ((popcount 4294967295 : Nat) : Int) :=
  ⟨by norm_num, claim_C2.1 4294967295 (by norm_num)⟩

/-! Section: Decoding: big-endian byte expansion -/

theorem castByteBE : ∀ b, b < 256 →
    BitArray.octet (BitArray.cast b true) = specByteBigEndian b := by
  decide

/-- Claim C3: `castFromBuffer` produces, byte by byte in buffer order, the
8-bit big-endian expansion of each byte; the empty buffer decodes to the
empty sequence, and `[128, 144]` decodes to the documented pattern. -/
theorem claim_C3 :
    (∀ buf : List Nat, (∀ b ∈ buf, b < 256) →
      BitArray.castFromBuffer buf = specDecode buf)
    ∧ BitArray.castFromBuffer [] = []
    ∧ BitArray.castFromBuffer [128, 144]
      = [1, 0, 0, 0, 0, 0, 0, 0, 1, 0, 0, 1, 0, 0, 0, 0] := by
  refine ⟨fun buf => ?_, rfl, by decide⟩
  induction buf with
  | nil => intro _; rfl
  | cons b t ih =>
    intro h
    show BitArray.octet (BitArray.cast b true) ++ BitArray.castFromBuffer t
        = specByteBigEndian b ++ specDecode t
    rw [castByteBE b (h b (by simp)), ih (fun x hx => h x (by simp [hx]))]

theorem claim_C3_witness :
    (∀ b ∈ [200, 5], b < 256) ∧
    BitArray.castFromBuffer [200, 5] = specDecode [200, 5] :=
  ⟨by decide, claim_C3.1 [200, 5] (by decide)⟩

/-! Section: Longest-operand length -/

theorem foldr_max_swap (t : List (List Nat)) : ∀ a b : Nat,
    t.foldr (fun xs m => max xs.length m) (max a b)
      = max b (t.foldr (fun xs m => max xs.length m) a) := by
  induction t with
  | nil => intro a b; simp [Nat.max_comm]
  | cons x s ih =>
    intro a b
    show max x.length (s.foldr _ (max a b)) = max b (max x.length (s.foldr _ a))
    rw [ih]
    omega

theorem longest_foldl_length (args : List (List Nat)) : ∀ acc : List Nat,
    (args.foldl (fun resp arg => if resp.length ≤ arg.length then arg else resp) acc).length
      = args.foldr (fun xs m => max xs.length m) acc.length := by
  induction args with
  | nil => intro acc; rfl
  | cons x t ih =>
    intro acc
    show (t.foldl _ (if acc.length ≤ x.length then x else acc)).length
        = max x.length (t.foldr _ acc.length)
    rw [ih]
    have hlen : (if acc.length ≤ x.length then x else acc).length
        = max acc.length x.length := by
      split_ifs with h <;> omega
    rw [hlen]
    exact foldr_max_swap t acc.length x.length

theorem longest_length (args : List (List Nat)) :
    (utils.longest args).length = maxLenOf args := by
  unfold utils.longest maxLenOf
  rw [longest_foldl_length]
  rfl

theorem mapRange_getD (n : Nat) (f : Nat → Nat) (i : Nat) (h : i < n) :
    ((List.range n).map f).getD i 0 = f i := by
  rw [List.getD_eq_getElem _ _ (by simpa using h)]
  simp

theorem getD_allBits {a : List Nat} (ha : AllBits a) (i : Nat) :
    a.getD i 0 = 0 ∨ a.getD i 0 = 1 := by
  by_cases h : i < a.length
  · rw [List.getD_eq_getElem _ _ h]
    exact ha _ (List.getElem_mem h)
  · rw [List.getD_eq_default _ _ (by omega)]
    exact Or.inl rfl

/-! Section: Static algebra characterization -/

theorem filter_length_eq_iff (p : List Nat → Bool) (l : List (List Nat)) :
    (l.filter p).length = l.length ↔ ∀ x ∈ l, p x := by
  constructor
  · intro h
    rw [← List.filter_eq_self]
    exact (List.filter_sublist l).eq_of_length h
  · intro h
    rw [List.filter_eq_self.mpr h]

theorem filter_length_ne_zero_iff (p : List Nat → Bool) (l : List (List Nat)) :
    (l.filter p).length ≠ 0 ↔ ∃ x ∈ l, p x := by
  rw [Ne, List.length_eq_zero, List.filter_eq_nil_iff]
  push_neg
  simp

theorem and_single (a : List Nat) (ha : AllBits a) : BitArray.and [a] = a := by
  have hl : utils.longest [a] = a := by
    show (if ([] : List Nat).length ≤ a.length then a else []) = a
    simp
  apply List.ext_getElem
  · simp [BitArray.and, hl]
  · intro i h1 h2
    simp only [BitArray.and, hl] at h1 ⊢
    rw [List.getElem_map, List.getElem_range]
    have hget : a.getD i 0 = a[i] := List.getD_eq_getElem _ _ h2
    rcases ha a[i] (List.getElem_mem h2) with h0 | h0
    · rw [show ([a].filter fun x => x.getD i 0 == 1) = [] from by
        simp [List.getElem?_eq_getElem h2, h0]]
      simp [h0]
    · rw [show ([a].filter fun x => x.getD i 0 == 1) = [a] from by
        simp [List.getElem?_eq_getElem h2, h0]]
      simp [h0]

theorem or_single (a : List Nat) (ha : AllBits a) : BitArray.or [a] = a := by
  have hl : utils.longest [a] = a := by
    show (if ([] : List Nat).length ≤ a.length then a else []) = a
    simp
  apply List.ext_getElem
  · simp [BitArray.or, hl]
  · intro i h1 h2
    simp only [BitArray.or, hl] at h1 ⊢
    rw [List.getElem_map, List.getElem_range]
    have hget : a.getD i 0 = a[i] := List.getD_eq_getElem _ _ h2
    rcases ha a[i] (List.getElem_mem h2) with h0 | h0
    · rw [show ([a].filter fun x => x.getD i 0 == 1) = [] from by
        simp [List.getElem?_eq_getElem h2, h0]]
      simp [h0]
    · rw [show ([a].filter fun x => x.getD i 0 == 1) = [a] from by
        simp [List.getElem?_eq_getElem h2, h0]]
      simp [h0]

/-- Claim C4: the variadic operators return a sequence as long as the longest
operand; `and` sets bit `i` exactly when every operand has bit `i` set, `or`
when some operand does, `xor` (two operands) when exactly one does, with
indices past a shorter operand read as 0; a single operand passes through
`and`/`or` unchanged; and the spec's concrete examples hold. -/
theorem claim_C4 :
    (∀ args : List (List Nat), args ≠ [] → (∀ xs ∈ args, AllBits xs) →
      (BitArray.and args).length = maxLenOf args ∧
      (BitArray.or args).length = maxLenOf args ∧
      (∀ i, i < maxLenOf args →
        ((BitArray.and args).getD i 0 = 1 ↔ ∀ xs ∈ args, xs.getD i 0 = 1) ∧
        ((BitArray.or args).getD i 0 = 1 ↔ ∃ xs ∈ args, xs.getD i 0 = 1)))
    ∧ (∀ a b : List Nat, AllBits a → AllBits b →
      (BitArray.xor a b).length = max a.length b.length ∧
      (∀ i, i < max a.length b.length →
        ((BitArray.xor a b).getD i 0 = 1 ↔
          ((a.getD i 0 = 1 ∧ ¬ b.getD i 0 = 1) ∨ (b.getD i 0 = 1 ∧ ¬ a.getD i 0 = 1)))))
    ∧ (∀ a : List Nat, AllBits a → BitArray.and [a] = a ∧ BitArray.or [a] = a)
    ∧ BitArray.and [[1, 1, 1], [1, 1]] = [1, 1, 0]
    ∧ BitArray.or [[1, 0, 0], [0, 1, 0], [0, 0, 1]] = [1, 1, 1]
    ∧ BitArray.and [[1, 0, 0], [1, 1, 0], [1, 0, 1]] = [1, 0, 0]
    ∧ BitArray.xor [1, 0, 0] [1, 1, 1] = [0, 1, 1] := by
  refine ⟨fun args _ _ => ⟨?_, ?_, fun i hi => ⟨?_, ?_⟩⟩,
    fun a b ha hb => ⟨?_, fun i hi => ?_⟩,
    fun a ha => ⟨and_single a ha, or_single a ha⟩, by decide, by decide, by decide, by decide⟩
  · simp [BitArray.and, longest_length]
  · simp [BitArray.or, longest_length]
  · rw [show (BitArray.and args).getD i 0
        = ((List.range (utils.longest args).length).map fun j =>
            if (args.filter fun x => x.getD j 0 == 1).length = args.length
            then 1 else 0).getD i 0 from rfl]
    rw [mapRange_getD _ _ i (by rw [longest_length]; exact hi)]
    constructor
    · intro h
      by_cases hc : (args.filter fun x => x.getD i 0 == 1).length = args.length
      · intro xs hxs
        have := (filter_length_eq_iff _ _).mp hc xs hxs
        simpa using this
      · rw [if_neg hc] at h
        exact absurd h (by norm_num)
    · intro h
      rw [if_pos ((filter_length_eq_iff _ _).mpr (fun x hx => by simpa using h x hx))]
  · rw [show (BitArray.or args).getD i 0
        = ((List.range (utils.longest args).length).map fun j =>
            if (args.filter fun x => x.getD j 0 == 1).length ≠ 0
            then 1 else 0).getD i 0 from rfl]
    rw [mapRange_getD _ _ i (by rw [longest_length]; exact hi)]
    constructor
    · intro h
      by_cases hc : (args.filter fun x => x.getD i 0 == 1).length ≠ 0
      · rcases (filter_length_ne_zero_iff _ _).mp hc with ⟨x, hxm, hx⟩
        exact ⟨x, hxm, by simpa using hx⟩
      · rw [if_neg hc] at h
        exact absurd h (by norm_num)
    · rintro ⟨x, hxm, hx⟩
      rw [if_pos ((filter_length_ne_zero_iff _ _).mpr ⟨x, hxm, by simpa using hx⟩)]
  · have : maxLenOf [a, b] = max a.length b.length := by
      simp [maxLenOf]
    simp [BitArray.xor, longest_length, this]
  · have hlen : maxLenOf [a, b] = max a.length b.length := by
      simp [maxLenOf]
    rw [show (BitArray.xor a b).getD i 0
        = ((List.range (utils.longest [a, b]).length).map fun j =>
            if (a.getD j 0 ≠ 0 ∧ b.getD j 0 = 0) ∨ (b.getD j 0 ≠ 0 ∧ a.getD j 0 = 0)
            then 1 else 0).getD i 0 from rfl]
    rw [mapRange_getD _ _ i (by rw [longest_length, hlen]; exact hi)]
    rcases getD_allBits ha i with h0 | h0 <;> rcases getD_allBits hb i with h1 | h1 <;>
      · simp only [h0, h1]
        norm_num

theorem claim_C4_witness :
    ([[1, 1, 0], [0, 1]] : List (List Nat)) ≠ [] ∧
    (∀ xs ∈ [[1, 1, 0], [0, 1]], AllBits xs) ∧
    ((BitArray.and [[1, 1, 0], [0, 1]]).length = maxLenOf [[1, 1, 0], [0, 1]] ∧
      (BitArray.or [[1, 1, 0], [0, 1]]).length = maxLenOf [[1, 1, 0], [0, 1]] ∧
      (∀ i, i < maxLenOf [[1, 1, 0], [0, 1]] →
        ((BitArray.and [[1, 1, 0], [0, 1]]).getD i 0 = 1 ↔
          ∀ xs ∈ [[1, 1, 0], [0, 1]], xs.getD i 0 = 1) ∧
        ((BitArray.or [[1, 1, 0], [0, 1]]).getD i 0 = 1 ↔
          ∃ xs ∈ [[1, 1, 0], [0, 1]], xs.getD i 0 = 1))) :=
  ⟨by decide, by decide,
    claim_C4.1 [[1, 1, 0], [0, 1]] (by decide) (by decide)⟩

/-! Section: Bits-are-0-or-1 invariant -/

theorem mem_mapRange_bit {n : Nat} {g : Nat → Prop} [DecidablePred g] {y : Nat}
    (hy : y ∈ (List.range n).map fun i => if g i then 1 else 0) : y = 0 ∨ y = 1 := by
  rcases List.mem_map.mp hy with ⟨i, _, rfl⟩
  split_ifs <;> simp

/-- Claim C10: every element produced by the algebra operators is literally 0
or 1, for arbitrary (not necessarily boolean) inputs; and `set` stores
exactly 0 or 1, zero-fills every index between the previous length and the
target, and preserves the all-bits invariant. -/
theorem claim_C10 :
    (∀ args : List (List Nat), args ≠ [] → ∀ y ∈ BitArray.and args, y = 0 ∨ y = 1)
    ∧ (∀ args : List (List Nat), args ≠ [] → ∀ y ∈ BitArray.or args, y = 0 ∨ y = 1)
    ∧ (∀ a b : List Nat, ∀ y ∈ BitArray.xor a b, y = 0 ∨ y = 1)
    ∧ (∀ bits idx val,
        (AllBits bits → AllBits (BitArray.set bits idx val))
        ∧ (∀ j, bits.length ≤ j → j < idx → (BitArray.set bits idx val).getD j 0 = 0)
        ∧ ((BitArray.set bits idx val).getD idx 0 = 0
            ∨ (BitArray.set bits idx val).getD idx 0 = 1)) := by
  refine ⟨fun args _ y hy => mem_mapRange_bit hy,
    fun args _ y hy => mem_mapRange_bit hy,
    fun a b y hy => mem_mapRange_bit hy,
    fun bits idx val => ⟨?_, ?_, ?_⟩⟩
  · intro hab
    have hv01 : (if val ≠ 0 then 1 else 0) = 0 ∨ (if val ≠ 0 then 1 else 0) = 1 := by
      split_ifs <;> simp
    unfold BitArray.set
    by_cases h : idx < bits.length
    · rw [if_pos h]
      intro y hy
      rcases List.mem_or_eq_of_mem_set hy with hmem | rfl
      · exact hab y hmem
      · exact hv01
    · rw [if_neg h]
      intro y hy
      rcases List.mem_append.mp hy with hy1 | hy2
      · rcases List.mem_append.mp hy1 with hy3 | hy4
        · exact hab y hy3
        · exact Or.inl (List.eq_of_mem_replicate hy4)
      · rw [List.mem_singleton] at hy2
        subst hy2
        exact hv01
  · intro j hj1 hj2
    unfold BitArray.set
    rw [if_neg (by omega)]
    have hjlen : j < (bits ++ List.replicate (idx - bits.length) 0).length := by
      simp
      omega
    rw [List.getD_append _ _ _ _ hjlen, List.getD_append_right _ _ _ _ hj1]
    rw [List.getD_eq_getElem _ _ (by simp; omega)]
    simp
  · have hv01 : (if val ≠ 0 then 1 else 0) = 0 ∨ (if val ≠ 0 then 1 else 0) = 1 := by
      split_ifs <;> simp
    unfold BitArray.set
    by_cases h : idx < bits.length
    · rw [if_pos h, List.getD_eq_getElem _ _ (by simpa using h), List.getElem_set_self]
      exact hv01
    · rw [if_neg h]
      rw [List.getD_append_right _ _ _ _ (by simp; omega)]
      have hlen0 : (bits ++ List.replicate (idx - bits.length) 0).length = idx := by
        simp
        omega
      rw [hlen0, Nat.sub_self]
      simpa using hv01

theorem claim_C10_witness :
    ([[2, 0], [5]] : List (List Nat)) ≠ [] ∧
    (∀ y ∈ BitArray.and [[2, 0], [5]], y = 0 ∨ y = 1) :=
  ⟨by decide, claim_C10.1 [[2, 0], [5]] (by decide)⟩

/-! Section: Aggregate exec: queue shape and result interpretation -/

theorem jsIndexGet_append_one (body : List Reply) (r : Reply) :
    jsIndexGet (body ++ [r]) 1 = some r := by
  unfold jsIndexGet
  rw [if_pos (by simp)]
  rw [show (body ++ [r]).length - 1 = body.length from by simp]
  rw [List.getElem?_append_right (le_refl _)]
  simp

theorem jsIndexGet_append_two (body : List Reply) (r rd : Reply) :
    jsIndexGet (body ++ [r, rd]) 2 = some r := by
  unfold jsIndexGet
  rw [if_pos (by simp)]
  rw [show (body ++ [r, rd]).length - 2 = body.length from by simp]
  rw [List.getElem?_append_right (le_refl _)]
  simp

/-- Claim C5: `exec` appends the terminal read command (plus, under cleanup,
a deletion of the destination) to the batch, and interprets the
second-to-last (cleanup) or last (otherwise) reply as the payload, wrapping
it in a `BitArray` for a `GET`-class terminal and passing the integer reply
through for a count-class terminal. -/
theorem claim_C5 : ∀ st : AggState, ∀ c : TermCmd, st.lastCmd = some c → st.dest ≠ "" →
    ((aggExec st).2 = [Effect.multiExec (st.queue ++ [readCmd c st.dest]
        ++ (if st.cleanup then [RCmd.del st.dest] else []))])
    ∧ (∀ body : List Reply, ∀ r rd : Reply,
        aggInterpret c true (body ++ [r, rd]) = aggInterpret c false (body ++ [r]))
    ∧ (∀ body : List Reply, ∀ bts : List Nat, ∀ rd : Reply,
        aggInterpret TermCmd.get true (body ++ [Reply.buf bts, rd])
          = Delivered.bitarr (BitArray.castFromBuffer bts))
    ∧ (∀ body : List Reply, ∀ n : Int, ∀ rd : Reply,
        aggInterpret TermCmd.bitcount true (body ++ [Reply.int n, rd])
          = Delivered.reply (Reply.int n))
    ∧ (∀ body : List Reply, ∀ bts : List Nat,
        aggInterpret TermCmd.get false (body ++ [Reply.buf bts])
          = Delivered.bitarr (BitArray.castFromBuffer bts))
    ∧ (∀ body : List Reply, ∀ n : Int,
        aggInterpret TermCmd.bitcount false (body ++ [Reply.int n])
          = Delivered.reply (Reply.int n)) := by
  intro st c h1 h2
  refine ⟨?_, ?_, ?_, ?_, ?_, ?_⟩
  · unfold aggExec aggExecQueue
    rw [if_pos ⟨h2, by rw [h1]; rfl⟩, h1]
    rfl
  · intro body r rd
    unfold aggInterpret
    rw [show (if (true : Bool) then 2 else 1) = 2 from rfl,
      show (if (false : Bool) then 2 else 1) = 1 from rfl,
      jsIndexGet_append_two, jsIndexGet_append_one]
  · intro body bts rd
    unfold aggInterpret
    rw [show (if (true : Bool) then 2 else 1) = 2 from rfl, jsIndexGet_append_two]
    rfl
  · intro body n rd
    unfold aggInterpret
    rw [show (if (true : Bool) then 2 else 1) = 2 from rfl, jsIndexGet_append_two]
    rfl
  · intro body bts
    unfold aggInterpret
    rw [show (if (false : Bool) then 2 else 1) = 1 from rfl, jsIndexGet_append_one]
    rfl
  · intro body n
    unfold aggInterpret
    rw [show (if (false : Bool) then 2 else 1) = 1 from rfl, jsIndexGet_append_one]
    rfl

theorem claim_C5_witness :
    (aggExec { queue := [RCmd.bitop "OR" "bitmap:tmp" ["a"]],
               lastCmd := some TermCmd.get, dest := "bitmap:tmp", cleanup := true,
               isRunning := true, execCount := 0 }).2
      = [Effect.multiExec [RCmd.bitop "OR" "bitmap:tmp" ["a"],
          readCmd TermCmd.get "bitmap:tmp", RCmd.del "bitmap:tmp"]] := by
  have h := (claim_C5 { queue := [RCmd.bitop "OR" "bitmap:tmp" ["a"]],
                        lastCmd := some TermCmd.get, dest := "bitmap:tmp", cleanup := true,
                        isRunning := true, execCount := 0 } TermCmd.get rfl (by decide)).1
  simpa using h

/-! Section: Facade count: transactional batch vs direct command -/

/-- Claim C6 (amended): a multi-key `count`/`bitcount` call that supplies a
completion callback issues the OR-reduce, the BITCOUNT of the scratch key
and its deletion as one MULTI/EXEC transaction, never as separate round
trips. -/
theorem claim_C6 : ∀ dest : String, ∀ keys : List String, 2 ≤ keys.length →
    Bitmap.count dest keys true
      = [Effect.multiExec [RCmd.bitop "OR" dest keys,
          RCmd.bitcount [dest], RCmd.del dest]] := by
  intro dest keys h
  unfold Bitmap.count
  rw [if_neg (by simp; omega)]
  rfl

theorem claim_C6_witness :
    Bitmap.count "bitmap:tmp" ["a", "b"] true
      = [Effect.multiExec [RCmd.bitop "OR" "bitmap:tmp" ["a", "b"],
          RCmd.bitcount ["bitmap:tmp"], RCmd.del "bitmap:tmp"]] :=
  claim_C6 "bitmap:tmp" ["a", "b"] (by decide)

theorem claim_C6_counterexample :
    Bitmap.count "bitmap:tmp" ["a", "b"] false
      = [Effect.command (RCmd.bitcount ["a", "b"])]
    ∧ Bitmap.count "bitmap:tmp" ["a", "b"] false
      ≠ [Effect.multiExec [RCmd.bitop "OR" "bitmap:tmp" ["a", "b"],
          RCmd.bitcount ["bitmap:tmp"], RCmd.del "bitmap:tmp"]] := by
  exact ⟨rfl, by decide⟩

/-! Section: Constructor buffer-mode contract -/

/-- Claim C7: constructing the facade over a client that is not in raw-buffer
mode either throws a configuration error immediately (current constructor) or
forces the buffer-detection mode on (historical constructor); construction
never completes with a client left in text-decoding mode. -/
theorem claim_C7 :
    (∀ o : Bitmap.ClientOptions, o.return_buffers = false →
      Bitmap.mk' o = Except.error "Redis instance must have return_buffers set.")
    ∧ (∀ o r : Bitmap.ClientOptions, Bitmap.mk' o = Except.ok r →
      r.return_buffers = true)
    ∧ (∀ o : Bitmap.ClientOptions, (Bitmap.mkLegacy o).detect_buffers = true) := by
  refine ⟨fun o h => ?_, fun o r h => ?_, fun o => ?_⟩
  · unfold Bitmap.mk'
    rw [h]
    rfl
  · unfold Bitmap.mk' at h
    by_cases hb : o.return_buffers
    · simp [hb] at h
      rw [← h]
      exact hb
    · simp [hb] at h
  · unfold Bitmap.mkLegacy
    by_cases h : o.detect_buffers
    · rw [if_neg (by simp [h])]
      exact h
    · rw [if_pos (by simp [h])]

theorem claim_C7_witness :
    Bitmap.mk' { return_buffers := false, detect_buffers := true }
      = Except.error "Redis instance must have return_buffers set." :=
  claim_C7.1 { return_buffers := false, detect_buffers := true } rfl

/-! Section: Aggregate sessions keep accepting calls after exec -/

/-- Claim C8 (amended): no chain method ever fails, no matter the session
state — in particular after `exec` has already run; bitwise, setbit and
count calls silently append their command to the same multi queue, and
`clean` just sets the flag. -/
theorem claim_C8 : ∀ st : AggState, ∀ m : ChainMethod,
    ∃ st' effs, aggChainStep st m = Except.ok (st', effs) ∧ effs = []
      ∧ (match m with
          | ChainMethod.clean => st'.queue = st.queue
          | _ => st'.queue.length = st.queue.length + 1) := by
  intro st m
  cases m with
  | bitwise op keys => exact ⟨_, _, rfl, rfl, by simp⟩
  | setbit k off v => exact ⟨_, _, rfl, rfl, by simp⟩
  | clean => exact ⟨_, _, rfl, rfl, rfl⟩
  | countKeys keys => exact ⟨_, _, rfl, rfl, by simp⟩

theorem claim_C8_counterexample :
    aggChainStep (Aggregate.mk' (some "bitmap:tmp")) (ChainMethod.bitwise "OR" ["a"])
      = Except.ok ({ queue := [RCmd.bitop "OR" "bitmap:tmp" ["a"]],
                     lastCmd := some TermCmd.get, dest := "bitmap:tmp",
                     cleanup := false, isRunning := true, execCount := 0 }, [])
    ∧ (aggExec { queue := [RCmd.bitop "OR" "bitmap:tmp" ["a"]],
                 lastCmd := some TermCmd.get, dest := "bitmap:tmp",
                 cleanup := false, isRunning := true, execCount := 0 }).1.execCount = 1
    ∧ aggChainStep (aggExec { queue := [RCmd.bitop "OR" "bitmap:tmp" ["a"]],
                              lastCmd := some TermCmd.get, dest := "bitmap:tmp",
                              cleanup := false, isRunning := true, execCount := 0 }).1
        (ChainMethod.bitwise "XOR" ["k"])
      = Except.ok ({ queue := [RCmd.bitop "OR" "bitmap:tmp" ["a"],
                      RCmd.getKeys ["bitmap:tmp"],
                      RCmd.bitop "XOR" "bitmap:tmp" ["k", "bitmap:tmp"]],
                     lastCmd := some TermCmd.get, dest := "bitmap:tmp",
                     cleanup := false, isRunning := true, execCount := 1 }, []) := by
  refine ⟨rfl, rfl, rfl⟩

/-! Section: No client-side arity validation for bitwise operations -/

/-- Claim C9 (amended): the facade performs no arity validation: `not` with
any number of keys and `or` with zero keys still queue and execute the
BITOP/read/DEL transaction against the store, leaving any arity error to the
store's asynchronous reply. -/
theorem claim_C9 :
    (∀ dest : String, ∀ keys : List String,
      Bitmap.not dest keys true = [Effect.multiExec
        [RCmd.bitop "NOT" dest keys, RCmd.getKeys [dest], RCmd.del dest]])
    ∧ (∀ dest : String, Bitmap.or dest [] true = [Effect.multiExec
        [RCmd.bitop "OR" dest [], RCmd.getKeys [dest], RCmd.del dest]]) :=
  ⟨fun _ _ => rfl, fun _ => rfl⟩

theorem claim_C9_counterexample :
    Bitmap.not "bitmap:tmp" ["a", "b"] true
      = [Effect.multiExec [RCmd.bitop "NOT" "bitmap:tmp" ["a", "b"],
          RCmd.getKeys ["bitmap:tmp"], RCmd.del "bitmap:tmp"]]
    ∧ Bitmap.not "bitmap:tmp" ["a", "b"] true ≠ []
    ∧ Bitmap.or "bitmap:tmp" [] true ≠ [] := by
  refine ⟨rfl, by decide, by decide⟩
